import Mathlib

/-!
Verification development for the Zoiper5 RPC API JS wrapper
(`src/rpc-manager.ts`).  The `RPCManager` class is embedded shallowly:
its mutable fields become an explicit `RPCState` record, every `async`
method becomes a pure function threading that state, and the JSON-RPC
engine collaborator is replaced by explicit reply arguments (oracles).
Each outbound request the manager would send is recorded as an `Event`
in a trace, so temporal claims (what is sent, in which order, after
which replies) become statements about computed traces.
-/

namespace ZoiperRPC

/-! ### Wire constants

From `src/const/rpc-server-methods.ts`.  The client-method and value
constants files are not part of the sources; those three definitions
are modelled from the spec. -/

def API_SERVER_METHOD_AUTHENTICATE : String := "authenticate"

def API_SERVER_METHOD_GET_ROOT_OBJECT : String := "getRootObject"

def API_SERVER_METHOD_GET_VALUE : String := "get"

def API_SERVER_METHOD_SET_VALUE : String := "set"

def API_SERVER_METHOD_CALL_FUNCTION : String := "execute"

def API_SERVER_METHOD_DESCRIBE_VARIABLES : String := "listProperties"

def API_SERVER_METHOD_DESCRIBE_FUNCTIONS : String := "listMethods"

/-- Modelled from the spec: the inbound method name of the wire table
(`src/const/rpc-client-methods.ts` is not among the sources). -/
def API_CLIENT_METHOD_CALLBACK : String := "callback"

/-- Modelled from the spec: "the reserved handle value (0) decodes to
null" (`src/const/rpc-values.ts` is not among the sources). -/
def API_VALUE_INVALID_SCRIPT_OBJECT : Nat := 0

/-! ### Local references and values -/

/-- A local JavaScript reference with identity: either a user-supplied
object/function (`user ident isFn`, where `isFn` records whether
`typeof ref` is `function`), or a proxy object freshly allocated by
`_describeScriptObject` (plain `{}`, never a function). -/
inductive Ref where
  | user (ident : Nat) (isFn : Bool)
  | proxyObj (ident : Nat)
deriving DecidableEq, Repr

/-- `typeof r === "function"` for a local reference. -/
def Ref.isFunctionRef : Ref → Bool
  | .user _ isFn => isFn
  | .proxyObj _ => false

/-- Kind of an own member installed on a materialized proxy by
`Object.defineProperty`: a get/set accessor pair (for a declared
property) or a data member holding the remote-call closure (for a
declared method). -/
inductive MemberKind where
  | accessor
  | methodMember
deriving DecidableEq, Repr

/-- A materialized remote proxy: the remote handle its closures target,
its own members in definition order, whether `Object.seal` ran, and
the identity of the underlying fresh `{}` object. -/
structure Proxy where
  target : Nat
  members : List (String × MemberKind)
  isSealed : Bool
  ref : Ref
deriving DecidableEq, Repr

/-- The `SerializableValue` union of `rpc-manager.ts`:
`boolean | number | string | object | undefined | null`, where objects
are either user references or materialized proxies. -/
inductive SerializableValue where
  | vBool (b : Bool)
  | vNum (n : Int)
  | vStr (s : String)
  | vUndefined
  | vNull
  | vObj (r : Ref)
  | vProxy (p : Proxy)
deriving DecidableEq, Repr

/-- The `SerializedValue` union: plain scalars pass through, `undefined`
becomes the empty marker, object references become script-object
handles. -/
inductive SerializedValue where
  | sBool (b : Bool)
  | sNum (n : Int)
  | sStr (s : String)
  | sEmpty
  | sScriptObject (handle : Nat)
deriving DecidableEq, Repr

/-- `isPlainValueType` from `rpc-manager.ts`:
`typeof value` is `boolean`, `number` or `string`. -/
def isPlainValueType : SerializableValue → Bool
  | .vBool _ => true
  | .vNum _ => true
  | .vStr _ => true
  | _ => false

/-- `arg instanceof Object` — the filter `_callAPIMethod` applies to its
arguments (objects and functions pass, scalars and null/undefined do
not), returning the reference identity. -/
def asObjectRef : SerializableValue → Option Ref
  | .vObj r => some r
  | .vProxy p => some p.ref
  | _ => none

/-! ### Manager state

The mutable fields of `RPCManager`: `_lastScriptObjectId`, the WeakMap
`_scriptObjectIdMap` (as an association list on reference identity),
and `_scriptObjectListStack`.  `freshIdent` drives allocation of the
fresh `{}` objects `_describeScriptObject` creates. -/

structure RPCState where
  lastScriptObjectId : Nat
  idMap : List (Ref × Nat)
  stack : List (List Ref)
  freshIdent : Nat
deriving DecidableEq, Repr

/-- `WeakMap.get` on the identity map. -/
def lookupId : List (Ref × Nat) → Ref → Option Nat
  | [], _ => none
  | (a, h) :: rest, r => if a = r then some h else lookupId rest r

/-- `_assignScriptObjectId`: if the reference has no handle yet,
increment `_lastScriptObjectId` and record the new handle for it;
otherwise do nothing. -/
def RPCState.assignScriptObjectId (st : RPCState) (r : Ref) : RPCState :=
  match lookupId st.idMap r with
  | some _ => st
  | none =>
    { st with
      lastScriptObjectId := st.lastScriptObjectId + 1,
      idMap := (r, st.lastScriptObjectId + 1) :: st.idMap }

/-- The `RPCManager` constructor: `_lastScriptObjectId` starts at the
invalid handle, every value of the global-callbacks record is assigned
a handle eagerly, and the frame stack starts as the single permanent
frame holding exactly those values. -/
def mkRPCManager (globalCallbacks : List (String × Ref)) : RPCState :=
  let fns := globalCallbacks.map Prod.snd
  let st0 : RPCState :=
    { lastScriptObjectId := API_VALUE_INVALID_SCRIPT_OBJECT
      idMap := []
      stack := []
      freshIdent := 0 }
  let st1 := fns.foldl RPCState.assignScriptObjectId st0
  { st1 with stack := [fns] }

/-! ### Requests and traces -/

/-- One outbound JSON-RPC request: method name and positional params
(property/method names travel as plain strings, i.e. `sStr`). -/
structure Request where
  method : String
  params : List SerializedValue
deriving DecidableEq, Repr

/-- Observable communication events of a run: a request was sent, or a
reply for the pending request was received. -/
inductive Event where
  | sent (req : Request)
  | received
deriving DecidableEq, Repr

/-! ### Value codec -/

/-- `_serialize`: scalars pass through; `undefined` becomes the empty
marker; `null` becomes the invalid handle; any other object or function
must already be in the identity map, otherwise serialization throws
`Unexpected value`. -/
def serializeValue (st : RPCState) : SerializableValue → Except String SerializedValue
  | .vBool b => .ok (.sBool b)
  | .vNum n => .ok (.sNum n)
  | .vStr s => .ok (.sStr s)
  | .vUndefined => .ok .sEmpty
  | .vNull => .ok (.sScriptObject API_VALUE_INVALID_SCRIPT_OBJECT)
  | .vObj r =>
    match lookupId st.idMap r with
    | some h => .ok (.sScriptObject h)
    | none => .error "Unexpected value"
  | .vProxy p =>
    match lookupId st.idMap p.ref with
    | some h => .ok (.sScriptObject h)
    | none => .error "Unexpected value"

/-- `args.map((arg) => this._serialize(arg))` with the first thrown
error propagated. -/
def serializeArgs (st : RPCState) : List SerializableValue → Except String (List SerializedValue)
  | [] => .ok []
  | a :: rest =>
    match serializeValue st a with
    | .error e => .error e
    | .ok s =>
      match serializeArgs st rest with
      | .error e => .error e
      | .ok ss => .ok (s :: ss)

/-! ### Object materializer -/

/-- `Object.defineProperty(scriptObject, name, ...)`: defining a fresh
name appends it; redefining an existing (non-configurable) own member
throws a `TypeError`. -/
def defineProperty (members : List (String × MemberKind)) (name : String) (k : MemberKind) :
    Except String (List (String × MemberKind)) :=
  if name ∈ members.map Prod.fst then
    .error ("TypeError: Cannot redefine property: " ++ name)
  else
    .ok (members ++ [(name, k)])

/-- The `for ... of` loops of `_describeScriptObject`: define one member
per declared name, all of the same kind. -/
def defineAll (members : List (String × MemberKind)) (names : List String) (k : MemberKind) :
    Except String (List (String × MemberKind)) :=
  match names with
  | [] => .ok members
  | n :: rest =>
    match defineProperty members n k with
    | .error e => .error e
    | .ok ms => defineAll ms rest k

/-- First own member of a proxy under a given name
(property lookup on the sealed object). -/
def lookupMember : List (String × MemberKind) → String → Option MemberKind
  | [], _ => none
  | (n, k) :: rest, name => if n = name then some k else lookupMember rest name

/-- The member list a successful materialization produces: one accessor
per declared property, then one method member per declared method. -/
def builtMembers (props methods : List String) : List (String × MemberKind) :=
  props.map (fun n => (n, MemberKind.accessor)) ++
    methods.map (fun n => (n, MemberKind.methodMember))

/-- The two describe round trips `_describeScriptObject` performs for a
handle, in order. -/
def describeRequests (h : Nat) : List Event :=
  [.sent ⟨API_SERVER_METHOD_DESCRIBE_VARIABLES, [.sScriptObject h]⟩, .received,
   .sent ⟨API_SERVER_METHOD_DESCRIBE_FUNCTIONS, [.sScriptObject h]⟩, .received]

/-- State change of `_describeScriptObject`: the fresh `{}` object is
recorded in the identity map under the remote handle
(`this._scriptObjectIdMap.set(scriptObject, serializedTarget.scriptObject)`);
the frame stack is untouched. -/
def describedState (st : RPCState) (h : Nat) : RPCState :=
  { st with
    idMap := (Ref.proxyObj st.freshIdent, h) :: st.idMap,
    freshIdent := st.freshIdent + 1 }

/-- `_describeScriptObject`: issue the two describe calls, register the
fresh object under the target handle, define one accessor per property
name and one method member per method name, and seal the result.
`propsOf`/`methodsOf` are the oracle replies to the describe calls. -/
def describeScriptObject (st : RPCState) (propsOf methodsOf : Nat → List String) (h : Nat) :
    List Event × RPCState × Except String Proxy :=
  let build : Except String (List (String × MemberKind)) :=
    match defineAll [] (propsOf h) .accessor with
    | .error e => .error e
    | .ok ms => defineAll ms (methodsOf h) .methodMember
  match build with
  | .error e => (describeRequests h, describedState st h, .error e)
  | .ok ms =>
    (describeRequests h, describedState st h,
      .ok ⟨h, ms, true, Ref.proxyObj st.freshIdent⟩)

/-- `_deserialize`: scalars pass through, the empty marker decodes to
`undefined`, the invalid handle decodes to `null`, and any other handle
materializes a fresh proxy via `_describeScriptObject`. -/
def deserializeValue (st : RPCState) (propsOf methodsOf : Nat → List String) :
    SerializedValue → List Event × RPCState × Except String SerializableValue
  | .sBool b => ([], st, .ok (.vBool b))
  | .sNum n => ([], st, .ok (.vNum n))
  | .sStr s => ([], st, .ok (.vStr s))
  | .sEmpty => ([], st, .ok .vUndefined)
  | .sScriptObject h =>
    if h = API_VALUE_INVALID_SCRIPT_OBJECT then ([], st, .ok .vNull)
    else
      match describeScriptObject st propsOf methodsOf h with
      | (evs, st1, .error e) => (evs, st1, .error e)
      | (evs, st1, .ok p) => (evs, st1, .ok (.vProxy p))

/-! ### Materialized accessors and methods -/

/-- The request a materialized getter (`_createGetter`) sends:
`get` with `(handle, propertyName)`. -/
def getterRequest (target : Nat) (propertyName : String) : Request :=
  ⟨API_SERVER_METHOD_GET_VALUE, [.sScriptObject target, .sStr propertyName]⟩

/-- The request a materialized setter (`_createSetter`) sends:
`set` with `(handle, propertyName, encodedValue)`. -/
def setterRequest (target : Nat) (propertyName : String) (enc : SerializedValue) : Request :=
  ⟨API_SERVER_METHOD_SET_VALUE, [.sScriptObject target, .sStr propertyName, enc]⟩

/-- One invocation of a materialized getter: send the `get` request,
await the reply (`reply` oracle), deserialize the result. -/
def getterRun (st : RPCState) (target : Nat) (propertyName : String)
    (reply : Except String SerializedValue) (propsOf methodsOf : Nat → List String) :
    List Event × RPCState × Except String SerializableValue :=
  match reply with
  | .error e => ([.sent (getterRequest target propertyName), .received], st, .error e)
  | .ok rv =>
    match deserializeValue st propsOf methodsOf rv with
    | (evs, st1, res) =>
      ([.sent (getterRequest target propertyName), .received] ++ evs, st1, res)

/-- One invocation of a materialized setter: serialize the value first
(as the argument expression of `_jrpc.call`); if that throws, the call
fails before any request is sent; otherwise send `set` and await. -/
def setterRun (st : RPCState) (target : Nat) (propertyName : String)
    (value : SerializableValue) (reply : Except String SerializedValue) :
    List Event × RPCState × Except String Unit :=
  match serializeValue st value with
  | .error e => ([], st, .error e)
  | .ok enc =>
    match reply with
    | .error e =>
      ([.sent (setterRequest target propertyName enc), .received], st, .error e)
    | .ok _ =>
      ([.sent (setterRequest target propertyName enc), .received], st, .ok ())

/-! ### Outbound method calls (`_callAPIMethod`) -/

/-- `args.filter((arg) => arg instanceof Object)` — the scope-frame
contents of one call, in argument order. -/
def callArgsObjects (args : List SerializableValue) : List Ref :=
  args.filterMap asObjectRef

/-- The synchronous prefix of `_callAPIMethod`: assign a handle to every
object/function argument, then `unshift` the frame holding exactly
those references. -/
def callPushPhase (st : RPCState) (args : List SerializableValue) : RPCState :=
  let objs := callArgsObjects args
  let st1 := objs.foldl RPCState.assignScriptObjectId st
  { st1 with stack := objs :: st1.stack }

/-- The `finally` block of `_callAPIMethod`: `shift` the frame stack. -/
def popFrame (st : RPCState) : RPCState :=
  { st with stack := st.stack.tail }

/-- `_callAPIMethod`: push the argument frame, serialize the arguments;
if serialization throws the call fails with no request sent (frame still
popped by `finally`); otherwise send `execute` with
`(handle, name, ...encodedArgs)`, await the reply, deserialize the
result, and pop the frame in every outcome. -/
def callAPIMethod (st : RPCState) (target : Nat) (methodName : String)
    (args : List SerializableValue) (reply : Except String SerializedValue)
    (propsOf methodsOf : Nat → List String) :
    List Event × RPCState × Except String SerializableValue :=
  let st1 := callPushPhase st args
  match serializeArgs st1 args with
  | .error e => ([], popFrame st1, .error e)
  | .ok encoded =>
    let req : Request :=
      ⟨API_SERVER_METHOD_CALL_FUNCTION, .sScriptObject target :: .sStr methodName :: encoded⟩
    match reply with
    | .error e => ([.sent req, .received], popFrame st1, .error e)
    | .ok rv =>
      match deserializeValue st1 propsOf methodsOf rv with
      | (evs, st2, res) => ([.sent req, .received] ++ evs, popFrame st2, res)

/-! ### Callback dispatch (`_findScriptObject`, `_handleAPICallback`) -/

/-- Inner loop of `_findScriptObject`: first reference in the frame
whose assigned handle matches. -/
def findInFrame (idMap : List (Ref × Nat)) : List Ref → Nat → Option Ref
  | [], _ => none
  | r :: rest, h =>
    if lookupId idMap r = some h then some r else findInFrame idMap rest h

/-- Outer loop of `_findScriptObject`: scan frames from the most
recently pushed toward the permanent bottom frame. -/
def findInStack (idMap : List (Ref × Nat)) : List (List Ref) → Nat → Option Ref
  | [], _ => none
  | frame :: rest, h =>
    match findInFrame idMap frame h with
    | some r => some r
    | none => findInStack idMap rest h

/-- `_findScriptObject`. -/
def findScriptObject (st : RPCState) (h : Nat) : Option Ref :=
  findInStack st.idMap st.stack h

/-- Is a local reference currently listed in some pushed frame
(including the permanent global frame)?  Used to state reachability;
note `_serialize` itself never consults this. -/
def reachableInFrames (st : RPCState) (r : Ref) : Bool :=
  st.stack.any (fun frame => frame.any (fun x => x == r))

/-- `Promise.all(args.map((arg) => this._deserialize(arg)))`, with the
materialization round trips of distinct arguments serialized
left-to-right in the single-threaded model. -/
def deserializeAll (propsOf methodsOf : Nat → List String) :
    RPCState → List SerializedValue →
    List Event × RPCState × Except String (List SerializableValue)
  | st, [] => ([], st, .ok [])
  | st, a :: rest =>
    match deserializeValue st propsOf methodsOf a with
    | (evs, st1, .error e) => (evs, st1, .error e)
    | (evs, st1, .ok v) =>
      match deserializeAll propsOf methodsOf st1 rest with
      | (evs2, st2, .error e) => (evs ++ evs2, st2, .error e)
      | (evs2, st2, .ok vs) => (evs ++ evs2, st2, .ok (v :: vs))

/-- Settlement of one inbound `callback` invocation, as seen by the
JSON-RPC engine that turns it into the reply:
`errorReply` — the handler's promise rejected with that message;
`acknowledged` — the handler resolved (its declared type is
`Promise<void>`, so it carries no value) after invoking the resolved
local function on the decoded arguments;
`resultReply` — a reply carrying an encoded result value (what the spec
describes; the code never produces this). -/
inductive CallbackOutcome where
  | errorReply (msg : String)
  | acknowledged (f : Ref) (args : List SerializableValue)
  | resultReply (v : SerializedValue)
deriving DecidableEq, Repr

/-- `_handleAPICallback`: resolve the handle against the frame stack; if
it resolves to anything that is not a function, throw
`Function was not found - ID: <handle>` (no argument is decoded and no
local function runs); otherwise decode all arguments, invoke the local
function on them (`funBehavior` oracle gives its result or thrown
error), and resolve with no value. -/
def handleAPICallback (st : RPCState) (propsOf methodsOf : Nat → List String)
    (funBehavior : Ref → List SerializableValue → Except String SerializableValue)
    (functionId : Nat) (args : List SerializedValue) :
    List Event × RPCState × CallbackOutcome :=
  match findScriptObject st functionId with
  | none =>
    ([], st, .errorReply ("Function was not found - ID: " ++ toString functionId))
  | some r =>
    if r.isFunctionRef then
      match deserializeAll propsOf methodsOf st args with
      | (evs, st1, .error e) => (evs, st1, .errorReply e)
      | (evs, st1, .ok vs) =>
        match funBehavior r vs with
        | .error e => (evs, st1, .errorReply e)
        | .ok _ => (evs, st1, .acknowledged r vs)
    else
      ([], st, .errorReply ("Function was not found - ID: " ++ toString functionId))

/-! ### Session initialization (`initialize`) -/

/-- The `authenticate` request. -/
def authRequest (token : String) : Request :=
  ⟨API_SERVER_METHOD_AUTHENTICATE, [.sStr token]⟩

/-- The `getRootObject` request. -/
def rootRequest : Request :=
  ⟨API_SERVER_METHOD_GET_ROOT_OBJECT, []⟩

/-- Oracle replies for one `initialize` run: the `authenticate` and
`getRootObject` replies, the describe replies per handle, and the
replies to the successive `registerCallback` executions. -/
structure InitOracle where
  authReply : Except String SerializedValue
  rootReply : Except String SerializedValue
  propsOf : Nat → List String
  methodsOf : Nat → List String
  execReplies : List (Except String SerializedValue)

/-- The `for (const [name, fn] of Object.entries(...))` loop of
`initialize`: call `registerCallback(name, fn)` on the root proxy — a
materialized method, hence `_callAPIMethod` — and await its settlement
before starting the next registration.  Each call consumes the next
reply of the oracle list; a rejection aborts the loop. -/
def registerLoop (propsOf methodsOf : Nat → List String) (target : Nat) :
    RPCState → List (String × Ref) → List (Except String SerializedValue) →
    List Event × RPCState × Except String Unit
  | st, [], _ => ([], st, .ok ())
  | st, (name, fn) :: rest, replies =>
    let reply := replies.headD (.error "no reply")
    match callAPIMethod st target "registerCallback" [.vStr name, .vObj fn] reply
        propsOf methodsOf with
    | (evs, st1, .error e) => (evs, st1, .error e)
    | (evs, st1, .ok _) =>
      match registerLoop propsOf methodsOf target st1 rest replies.tail with
      | (evs2, st2, res) => (evs ++ evs2, st2, res)

/-- `initialize(token)`: authenticate (an error reply rejects at once,
issuing nothing further); fetch and deserialize the root object; then
register every configured global callback in declared order.  Calling
`registerCallback` on a root value that is not a proxy exposing it as a
method is the JS `TypeError` path. -/
def initializeRun (globalCallbacks : List (String × Ref)) (token : String)
    (oracle : InitOracle) :
    List Event × RPCState × Except String SerializableValue :=
  let st0 := mkRPCManager globalCallbacks
  match oracle.authReply with
  | .error e => ([.sent (authRequest token), .received], st0, .error e)
  | .ok _ =>
    let evs0 := [.sent (authRequest token), .received, .sent rootRequest, .received]
    match oracle.rootReply with
    | .error e => (evs0, st0, .error e)
    | .ok rv =>
      match deserializeValue st0 oracle.propsOf oracle.methodsOf rv with
      | (evs1, st1, .error e) => (evs0 ++ evs1, st1, .error e)
      | (evs1, st1, .ok rootVal) =>
        match rootVal, globalCallbacks with
        | _, [] => (evs0 ++ evs1, st1, .ok rootVal)
        | .vProxy p, cbs =>
          if lookupMember p.members "registerCallback" = some .methodMember then
            match registerLoop oracle.propsOf oracle.methodsOf p.target st1 cbs
                oracle.execReplies with
            | (evs2, st2, .error e) => (evs0 ++ evs1 ++ evs2, st2, .error e)
            | (evs2, st2, .ok _) => (evs0 ++ evs1 ++ evs2, st2, .ok rootVal)
          else (evs0 ++ evs1, st1, .error "registerCallback is not a function")
        | _, _ => (evs0 ++ evs1, st1, .error "registerCallback is not a function")

/-! ### Trace observations -/

/-- The callback name of a sent `registerCallback` execution, if the
event is one. -/
def registrationName : Event → Option String
  | .sent req =>
    if req.method = API_SERVER_METHOD_CALL_FUNCTION then
      match req.params with
      | _ :: .sStr m :: .sStr n :: _ =>
        if m = "registerCallback" then some n else none
      | _ => none
    else none
  | .received => none

/-- The declared-order list of callback names whose registration
requests occur in a trace. -/
def registrationsOf (trace : List Event) : List String :=
  trace.filterMap registrationName

/-- A trace in which every request is followed by its reply before the
next request goes out: at most one call is outstanding at any point. -/
def alternating : List Event → Bool
  | [] => true
  | .sent _ :: .received :: rest => alternating rest
  | _ => false

/-- A wire value whose deserialization completes immediately, without
materialization round trips: any scalar, the empty marker, or the
invalid handle. -/
def nonMaterializing : SerializedValue → Bool
  | .sScriptObject h => h = API_VALUE_INVALID_SCRIPT_OBJECT
  | _ => true

/-- Immediate decoding of a non-materializing wire value. -/
def plainDecode : SerializedValue → SerializableValue
  | .sBool b => .vBool b
  | .sNum n => .vNum n
  | .sStr s => .vStr s
  | .sEmpty => .vUndefined
  | .sScriptObject _ => .vNull

/-- A settled reply carrying a non-materializing value. -/
def okScalarReply : Except String SerializedValue → Bool
  | .ok v => nonMaterializing v
  | .error _ => false

/-- Every handle in the identity map is a real (nonzero) handle bounded
by the allocation counter. -/
def HandlesWellFormed (st : RPCState) : Prop :=
  ∀ r h, lookupId st.idMap r = some h → 1 ≤ h ∧ h ≤ st.lastScriptObjectId

/-! ### Concrete fixtures -/

/-- A global callback function reference. -/
def fnFoo : Ref := .user 0 true

/-- An object reference never registered with the manager. -/
def objBare : Ref := .user 5 false

/-- An object reference used once as a call argument. -/
def objOnce : Ref := .user 0 false

/-- A manager configured with one global callback `foo`. -/
def stGlobal : RPCState := mkRPCManager [("foo", fnFoo)]

/-- A manager configured with no global callbacks. -/
def stEmpty : RPCState := mkRPCManager []

/-- State after one settled call that passed `objOnce` as an argument:
the reference keeps its handle in the identity map although the frame
that listed it is gone. -/
def stAfterCall : RPCState :=
  (callAPIMethod stEmpty 123 "foo" [.vObj objOnce] (.ok (.sBool true))
    (fun _ => []) (fun _ => [])).2.1

/-- A local function behavior returning 42. -/
def funBehaviorNum : Ref → List SerializableValue → Except String SerializableValue :=
  fun _ _ => .ok (.vNum 42)

/-- Describe oracle returning no names. -/
def noProps : Nat → List String := fun _ => []

/-- Describe oracle declaring a single property `x`. -/
def oneProp : Nat → List String := fun _ => ["x"]

/-- Describe oracle declaring a single method `registerCallback`. -/
def rcMethods : Nat → List String := fun _ => ["registerCallback"]

/-- Two configured global callbacks in declared order `a`, `b`. -/
def cfgTwo : List (String × Ref) := [("a", .user 0 true), ("b", .user 1 true)]

/-- Replies for a successful initialize run with two registrations. -/
def oracleTwo : InitOracle :=
  { authReply := .ok (.sBool true)
    rootReply := .ok (.sScriptObject 123)
    propsOf := noProps
    methodsOf := rcMethods
    execReplies := [.ok (.sNum 0), .ok (.sNum 0)] }

/-- Replies for a denied authentication. -/
def oracleDenied : InitOracle :=
  { authReply := .error "Access denied."
    rootReply := .ok (.sBool true)
    propsOf := noProps
    methodsOf := noProps
    execReplies := [] }

/-! ### Helper lemmas -/

theorem assign_stack (st : RPCState) (r : Ref) :
    (st.assignScriptObjectId r).stack = st.stack := by
  unfold RPCState.assignScriptObjectId
  cases lookupId st.idMap r <;> rfl

theorem foldl_assign_stack (objs : List Ref) :
    ∀ st : RPCState, (objs.foldl RPCState.assignScriptObjectId st).stack = st.stack := by
  induction objs with
  | nil => intro st; rfl
  | cons o rest ih =>
    intro st
    simpa [List.foldl, assign_stack] using ih (st.assignScriptObjectId o)

theorem callPushPhase_stack (st : RPCState) (args : List SerializableValue) :
    (callPushPhase st args).stack = callArgsObjects args :: st.stack := by
  simp [callPushPhase, foldl_assign_stack]

theorem assign_lookup_self (st : RPCState) (r : Ref) :
    ∃ h, lookupId (st.assignScriptObjectId r).idMap r = some h := by
  unfold RPCState.assignScriptObjectId
  cases hl : lookupId st.idMap r with
  | some h => exact ⟨h, hl⟩
  | none => exact ⟨st.lastScriptObjectId + 1, by simp [lookupId]⟩

theorem assign_preserves (st : RPCState) (r r' : Ref) (h : Nat)
    (hl : lookupId st.idMap r' = some h) :
    lookupId (st.assignScriptObjectId r).idMap r' = some h := by
  unfold RPCState.assignScriptObjectId
  cases hr : lookupId st.idMap r with
  | some _ => exact hl
  | none =>
    have hne : r ≠ r' := by
      intro he; rw [he, hl] at hr; exact Option.noConfusion hr
    simpa [lookupId, hne] using hl

theorem foldl_assign_preserves (objs : List Ref) :
    ∀ (st : RPCState) (r' : Ref) (h : Nat), lookupId st.idMap r' = some h →
      lookupId ((objs.foldl RPCState.assignScriptObjectId st)).idMap r' = some h := by
  induction objs with
  | nil => intro st r' h hl; exact hl
  | cons o rest ih =>
    intro st r' h hl
    exact ih (st.assignScriptObjectId o) r' h (assign_preserves st o r' h hl)

theorem foldl_assign_lookup_mem (objs : List Ref) :
    ∀ (st : RPCState) (r : Ref), r ∈ objs →
      ∃ h, lookupId ((objs.foldl RPCState.assignScriptObjectId st)).idMap r = some h := by
  induction objs with
  | nil => intro st r hr; exact absurd hr (List.not_mem_nil r)
  | cons o rest ih =>
    intro st r hr
    rcases List.mem_cons.mp hr with he | ht
    · subst he
      obtain ⟨h, hl⟩ := assign_lookup_self st r
      exact ⟨h, foldl_assign_preserves rest (st.assignScriptObjectId r) r h hl⟩
    · exact ih (st.assignScriptObjectId o) r ht

theorem describedState_stack (st : RPCState) (h : Nat) :
    (describedState st h).stack = st.stack := rfl

theorem deserialize_stack (st : RPCState) (propsOf methodsOf : Nat → List String)
    (v : SerializedValue) :
    (deserializeValue st propsOf methodsOf v).2.1.stack = st.stack := by
  cases v with
  | sBool b => rfl
  | sNum n => rfl
  | sStr s => rfl
  | sEmpty => rfl
  | sScriptObject h =>
    by_cases h0 : h = API_VALUE_INVALID_SCRIPT_OBJECT
    · simp [deserializeValue, h0]
    · simp only [deserializeValue, if_neg h0]
      rcases hd : describeScriptObject st propsOf methodsOf h with ⟨evs, st1, res⟩
      have hst : st1.stack = st.stack := by
        have : (describeScriptObject st propsOf methodsOf h).2.1 = describedState st h := by
          unfold describeScriptObject
          cases hb : (match defineAll [] (propsOf h) .accessor with
            | .error e => Except.error e
            | .ok ms => defineAll ms (methodsOf h) .methodMember :
              Except String (List (String × MemberKind))) <;> rfl
        rw [hd] at this
        simpa [describedState_stack] using congrArg RPCState.stack this
      cases res <;> simp [hst]

theorem deserialize_nonMat (st : RPCState) (propsOf methodsOf : Nat → List String)
    (v : SerializedValue) (hv : nonMaterializing v = true) :
    deserializeValue st propsOf methodsOf v = ([], st, .ok (plainDecode v)) := by
  cases v with
  | sBool b => rfl
  | sNum n => rfl
  | sStr s => rfl
  | sEmpty => rfl
  | sScriptObject h =>
    have h0 : h = API_VALUE_INVALID_SCRIPT_OBJECT := by
      simpa [nonMaterializing] using hv
    simp [deserializeValue, h0, plainDecode]

theorem defineAll_ok (names : List String) (k : MemberKind) :
    ∀ members : List (String × MemberKind), names.Nodup →
      (∀ n ∈ names, n ∉ members.map Prod.fst) →
      defineAll members names k = .ok (members ++ names.map (fun n => (n, k))) := by
  induction names with
  | nil => intro members _ _; simp [defineAll]
  | cons n rest ih =>
    intro members hnd hnin
    have hnmem : n ∉ members.map Prod.fst := hnin n (by simp)
    have hstep : defineProperty members n k = .ok (members ++ [(n, k)]) := by
      simp [defineProperty, hnmem]
    have hrest : defineAll (members ++ [(n, k)]) rest k
        = .ok ((members ++ [(n, k)]) ++ rest.map (fun m => (m, k))) := by
      refine ih (members ++ [(n, k)]) (List.Nodup.of_cons hnd) ?_
      intro m hm
      have hm1 : m ∉ members.map Prod.fst := hnin m (by simp [hm])
      have hm2 : m ≠ n := by
        intro he
        exact (List.nodup_cons.mp hnd).1 (he ▸ hm)
      simpa [hm2] using hm1
    calc defineAll members (n :: rest) k
        = defineAll (members ++ [(n, k)]) rest k := by
          simp [defineAll, hstep]
      _ = .ok (members ++ (n :: rest).map (fun m => (m, k))) := by
          rw [hrest]; simp

theorem describe_ok (st : RPCState) (propsOf methodsOf : Nat → List String) (h : Nat)
    (hnd : (propsOf h ++ methodsOf h).Nodup) :
    describeScriptObject st propsOf methodsOf h
      = (describeRequests h, describedState st h,
         .ok ⟨h, builtMembers (propsOf h) (methodsOf h), true, Ref.proxyObj st.freshIdent⟩) := by
  obtain ⟨hndP, hndM, hdisj⟩ := List.nodup_append.mp hnd
  have h1 : defineAll [] (propsOf h) .accessor
      = .ok ((propsOf h).map (fun n => (n, MemberKind.accessor))) := by
    simpa using defineAll_ok (propsOf h) .accessor [] hndP (by simp)
  have h2 : defineAll ((propsOf h).map (fun n => (n, MemberKind.accessor)))
      (methodsOf h) .methodMember
      = .ok (builtMembers (propsOf h) (methodsOf h)) := by
    have := defineAll_ok (methodsOf h) .methodMember
      ((propsOf h).map (fun n => (n, MemberKind.accessor))) hndM ?_
    · simpa [builtMembers] using this
    · intro m hm
      have : m ∉ propsOf h := fun hp => hdisj hp hm
      simpa using this
  unfold describeScriptObject
  simp [h1, h2]

theorem lookupMember_map_mem (names : List String) (k : MemberKind)
    (rest : List (String × MemberKind)) :
    ∀ name, name ∈ names →
      lookupMember (names.map (fun n => (n, k)) ++ rest) name = some k := by
  induction names with
  | nil => intro name hname; exact absurd hname (List.not_mem_nil name)
  | cons n ns ih =>
    intro name hname
    by_cases he : n = name
    · simp [lookupMember, he]
    · rcases List.mem_cons.mp hname with h1 | h2
      · exact absurd h1.symm he
      · simpa [lookupMember, he] using ih name h2

theorem lookupMember_map_skip (names : List String) (k : MemberKind)
    (rest : List (String × MemberKind)) :
    ∀ name, name ∉ names →
      lookupMember (names.map (fun n => (n, k)) ++ rest) name = lookupMember rest name := by
  induction names with
  | nil => intro name _; rfl
  | cons n ns ih =>
    intro name hname
    have hne : n ≠ name := fun he => hname (by simp [he])
    have hnin : name ∉ ns := fun hm => hname (by simp [hm])
    simpa [lookupMember, hne] using ih name hnin

theorem lookupMember_isSome_mem (l : List (String × MemberKind)) :
    ∀ name, lookupMember l name ≠ none → name ∈ l.map Prod.fst := by
  induction l with
  | nil => intro name hl; exact absurd rfl hl
  | cons e rest ih =>
    intro name hl
    by_cases he : e.1 = name
    · simp [he]
    · rcases e with ⟨n, k⟩
      simp only [lookupMember, if_neg he] at hl
      simpa using Or.inr (ih name hl)

theorem builtMembers_names (props methods : List String) :
    (builtMembers props methods).map Prod.fst = props ++ methods := by
  simp [builtMembers, List.map_map, Function.comp_def]

theorem alternating_pair (r : Request) (T : List Event) :
    alternating (.sent r :: .received :: T) = alternating T := rfl

theorem registrationsOf_append (a b : List Event) :
    registrationsOf (a ++ b) = registrationsOf a ++ registrationsOf b := by
  simp [registrationsOf]

theorem assign_eq_of_some (st : RPCState) (r : Ref) (h : Nat)
    (hl : lookupId st.idMap r = some h) : st.assignScriptObjectId r = st := by
  unfold RPCState.assignScriptObjectId
  rw [hl]

theorem assign_eq_of_none (st : RPCState) (r : Ref)
    (hl : lookupId st.idMap r = none) :
    st.assignScriptObjectId r
      = { st with
          lastScriptObjectId := st.lastScriptObjectId + 1,
          idMap := (r, st.lastScriptObjectId + 1) :: st.idMap } := by
  unfold RPCState.assignScriptObjectId
  rw [hl]

theorem assign_wf (st : RPCState) (r : Ref) (hwf : HandlesWellFormed st) :
    HandlesWellFormed (st.assignScriptObjectId r) := by
  cases hr : lookupId st.idMap r with
  | some h => rw [assign_eq_of_some st r h hr]; exact hwf
  | none =>
    rw [assign_eq_of_none st r hr]
    intro r2 h2 hl
    by_cases he : r = r2
    · simp only [lookupId, if_pos he] at hl
      have h2eq : h2 = st.lastScriptObjectId + 1 :=
        ((Option.some.injEq _ _).mp hl).symm
      refine ⟨by omega, ?_⟩
      show h2 ≤ st.lastScriptObjectId + 1
      omega
    · simp only [lookupId, if_neg he] at hl
      have hb := hwf r2 h2 hl
      refine ⟨hb.1, ?_⟩
      show h2 ≤ st.lastScriptObjectId + 1
      have := hb.2
      omega

theorem foldl_assign_wf (objs : List Ref) :
    ∀ st : RPCState, HandlesWellFormed st →
      HandlesWellFormed (objs.foldl RPCState.assignScriptObjectId st) := by
  induction objs with
  | nil => intro st hwf; exact hwf
  | cons o rest ih =>
    intro st hwf
    exact ih (st.assignScriptObjectId o) (assign_wf st o hwf)

theorem mk_wf (cfg : List (String × Ref)) : HandlesWellFormed (mkRPCManager cfg) := by
  have h0 : HandlesWellFormed
      { lastScriptObjectId := API_VALUE_INVALID_SCRIPT_OBJECT, idMap := [],
        stack := [], freshIdent := 0 } := by
    intro r h hl
    exact absurd hl (by simp [lookupId])
  intro r h hl
  exact foldl_assign_wf (cfg.map Prod.snd) _ h0 r h hl

theorem callPushPhase_lookup_arg (st : RPCState) (name : String) (fn : Ref) :
    ∃ hf, lookupId (callPushPhase st [.vStr name, .vObj fn]).idMap fn = some hf := by
  have hmem : fn ∈ callArgsObjects [.vStr name, .vObj fn] := by
    simp [callArgsObjects, asObjectRef]
  obtain ⟨hf, hl⟩ :=
    foldl_assign_lookup_mem (callArgsObjects [.vStr name, .vObj fn]) st fn hmem
  exact ⟨hf, hl⟩

theorem callAPIMethod_scalar (st : RPCState) (target : Nat) (mname name : String)
    (fn : Ref) (v : SerializedValue) (propsOf methodsOf : Nat → List String)
    (hf : Nat) (hlf : lookupId (callPushPhase st [.vStr name, .vObj fn]).idMap fn = some hf)
    (hnm : nonMaterializing v = true) :
    callAPIMethod st target mname [.vStr name, .vObj fn] (.ok v) propsOf methodsOf
      = ([.sent ⟨API_SERVER_METHOD_CALL_FUNCTION,
            [.sScriptObject target, .sStr mname, .sStr name, .sScriptObject hf]⟩, .received],
         popFrame (callPushPhase st [.vStr name, .vObj fn]), .ok (plainDecode v)) := by
  have hser : serializeArgs (callPushPhase st [.vStr name, .vObj fn]) [.vStr name, .vObj fn]
      = .ok [.sStr name, .sScriptObject hf] := by
    simp [serializeArgs, serializeValue, hlf]
  simp only [callAPIMethod, hser,
    deserialize_nonMat (callPushPhase st [.vStr name, .vObj fn]) propsOf methodsOf v hnm]
  rfl

theorem registerLoop_spec (propsOf methodsOf : Nat → List String) (target : Nat) :
    ∀ (cbs : List (String × Ref)) (st : RPCState)
      (replies : List (Except String SerializedValue)),
      cbs.length ≤ replies.length →
      replies.all okScalarReply = true →
      registrationsOf (registerLoop propsOf methodsOf target st cbs replies).1
          = cbs.map Prod.fst
        ∧ alternating (registerLoop propsOf methodsOf target st cbs replies).1 = true
        ∧ (registerLoop propsOf methodsOf target st cbs replies).2.2 = .ok () := by
  intro cbs
  induction cbs with
  | nil => intro st replies _ _; exact ⟨rfl, rfl, rfl⟩
  | cons cb rest ih =>
    rcases cb with ⟨name, fn⟩
    intro st replies hlen hall
    cases replies with
    | nil => simp at hlen
    | cons rep rtail =>
      have hall2 : okScalarReply rep = true ∧ rtail.all okScalarReply = true := by
        simpa using hall
      obtain ⟨v, hveq, hnm⟩ : ∃ v, rep = .ok v ∧ nonMaterializing v = true := by
        cases rep with
        | error e => exact absurd hall2.1 (by simp [okScalarReply])
        | ok v => exact ⟨v, rfl, hall2.1⟩
      subst hveq
      obtain ⟨hf, hlf⟩ := callPushPhase_lookup_arg st name fn
      have hcall := callAPIMethod_scalar st target "registerCallback" name fn v
        propsOf methodsOf hf hlf hnm
      rcases hrl : registerLoop propsOf methodsOf target
          (popFrame (callPushPhase st [.vStr name, .vObj fn])) rest rtail
        with ⟨evs2, st2, res⟩
      have hstep : registerLoop propsOf methodsOf target st ((name, fn) :: rest)
            (.ok v :: rtail)
          = ([.sent ⟨API_SERVER_METHOD_CALL_FUNCTION,
                [.sScriptObject target, .sStr "registerCallback", .sStr name,
                 .sScriptObject hf]⟩, .received] ++ evs2, st2, res) := by
        simp only [registerLoop, List.headD, List.tail, hcall, hrl]
      have hih := ih (popFrame (callPushPhase st [.vStr name, .vObj fn])) rtail
        (by simpa using Nat.le_of_succ_le_succ (by simpa using hlen)) hall2.2
      rw [hrl] at hih
      refine ⟨?_, ?_, ?_⟩
      · rw [hstep]
        simp only [registrationsOf_append]
        have hone : registrationsOf
            [.sent ⟨API_SERVER_METHOD_CALL_FUNCTION,
              [.sScriptObject target, .sStr "registerCallback", .sStr name,
               .sScriptObject hf]⟩, .received] = [name] := by
          simp [registrationsOf, registrationName, API_SERVER_METHOD_CALL_FUNCTION]
        rw [hone]
        simpa using hih.1
      · rw [hstep]
        have : alternating ((Event.sent ⟨API_SERVER_METHOD_CALL_FUNCTION,
            [.sScriptObject target, .sStr "registerCallback", .sStr name,
             .sScriptObject hf]⟩) :: .received :: evs2) = alternating evs2 := rfl
        simpa [this] using hih.2.1
      · rw [hstep]
        exact hih.2.2

theorem callAPIMethod_final_stack (st : RPCState) (target : Nat) (methodName : String)
    (args : List SerializableValue) (reply : Except String SerializedValue)
    (propsOf methodsOf : Nat → List String) :
    (callAPIMethod st target methodName args reply propsOf methodsOf).2.1.stack = st.stack := by
  simp only [callAPIMethod]
  cases hs : serializeArgs (callPushPhase st args) args with
  | error e => simp [popFrame, callPushPhase_stack]
  | ok encoded =>
    cases reply with
    | error e => simp [popFrame, callPushPhase_stack]
    | ok rv =>
      rcases hd : deserializeValue (callPushPhase st args) propsOf methodsOf rv
        with ⟨evs, st2, res⟩
      have hst : st2.stack = (callPushPhase st args).stack := by
        have hh := deserialize_stack (callPushPhase st args) propsOf methodsOf rv
        rw [hd] at hh
        exact hh
      simp [popFrame, hd, hst, callPushPhase_stack]

theorem callAPIMethod_head (st : RPCState) (target : Nat) (methodName : String)
    (args : List SerializableValue) (reply : Except String SerializedValue)
    (propsOf methodsOf : Nat → List String) (encoded : List SerializedValue)
    (hs : serializeArgs (callPushPhase st args) args = .ok encoded) :
    (callAPIMethod st target methodName args reply propsOf methodsOf).1.head?
      = some (.sent ⟨API_SERVER_METHOD_CALL_FUNCTION,
          .sScriptObject target :: .sStr methodName :: encoded⟩) := by
  simp only [callAPIMethod, hs]
  cases reply with
  | error e => rfl
  | ok rv =>
    rcases hd : deserializeValue (callPushPhase st args) propsOf methodsOf rv
      with ⟨evs, st2, res⟩
    simp [hd]

theorem registrationsOf_initHead (token : String) :
    registrationsOf [.sent (authRequest token), .received, .sent rootRequest, .received]
      = [] := by
  simp [registrationsOf, registrationName, authRequest, rootRequest,
    API_SERVER_METHOD_AUTHENTICATE, API_SERVER_METHOD_GET_ROOT_OBJECT,
    API_SERVER_METHOD_CALL_FUNCTION]

theorem registrationsOf_describe (h : Nat) :
    registrationsOf (describeRequests h) = [] := by
  simp [registrationsOf, registrationName, describeRequests,
    API_SERVER_METHOD_DESCRIBE_VARIABLES, API_SERVER_METHOD_DESCRIBE_FUNCTIONS,
    API_SERVER_METHOD_CALL_FUNCTION]

/-! ### Claim theorems -/

/-- C1: every `_callAPIMethod` invocation pushes a scope frame holding
exactly the object/function arguments of the call before the `execute`
request is sent, pops that frame exactly once after the call settles —
under a failed reply, a successful reply, and a serialization failure
alike — and the bottom frame holding the global callbacks is never
popped (it is the last frame before, during, and after the call). -/
theorem C1_scope_frame_discipline (st : RPCState) (target : Nat) (methodName : String)
    (args : List SerializableValue) (reply : Except String SerializedValue)
    (propsOf methodsOf : Nat → List String) (hne : st.stack ≠ []) :
    (callPushPhase st args).stack = callArgsObjects args :: st.stack
    ∧ (callAPIMethod st target methodName args reply propsOf methodsOf).2.1.stack = st.stack
    ∧ (callPushPhase st args).stack.getLast? = st.stack.getLast?
    ∧ (callAPIMethod st target methodName args reply propsOf methodsOf).2.1.stack.getLast?
        = st.stack.getLast?
    ∧ (∀ encoded, serializeArgs (callPushPhase st args) args = .ok encoded →
        (callAPIMethod st target methodName args reply propsOf methodsOf).1.head?
          = some (.sent ⟨API_SERVER_METHOD_CALL_FUNCTION,
              .sScriptObject target :: .sStr methodName :: encoded⟩)) := by
  have h1 := callPushPhase_stack st args
  have h2 := callAPIMethod_final_stack st target methodName args reply propsOf methodsOf
  refine ⟨h1, h2, ?_, by rw [h2], ?_⟩
  · rw [h1]
    cases hq : st.stack with
    | nil => exact absurd hq hne
    | cons b l => exact List.getLast?_cons_cons
  · intro encoded hs
    exact callAPIMethod_head st target methodName args reply propsOf methodsOf encoded hs

theorem C1_scope_frame_discipline_witness :
    stGlobal.stack ≠ []
    ∧ (callAPIMethod stGlobal 123 "m" [] (.ok (.sBool true)) noProps noProps).2.1.stack
        = stGlobal.stack :=
  ⟨by decide,
   (C1_scope_frame_discipline stGlobal 123 "m" [] (.ok (.sBool true)) noProps noProps
     (by decide)).2.1⟩

/-- C2: an inbound callback invocation whose handle resolves to nothing
in the pushed frames, or to a reference that is not a function, settles
as the error reply naming the missing handle; no argument is decoded,
no local function is invoked, and the manager state is unchanged. -/
theorem C2_unresolved_callback (st : RPCState) (propsOf methodsOf : Nat → List String)
    (funBehavior : Ref → List SerializableValue → Except String SerializableValue)
    (functionId : Nat) (args : List SerializedValue)
    (h : findScriptObject st functionId = none
      ∨ ∃ r, findScriptObject st functionId = some r ∧ r.isFunctionRef = false) :
    handleAPICallback st propsOf methodsOf funBehavior functionId args
      = ([], st, .errorReply ("Function was not found - ID: " ++ toString functionId)) := by
  rcases h with hn | ⟨r, hr, hf⟩
  · simp [handleAPICallback, hn]
  · simp [handleAPICallback, hr, hf]

theorem C2_unresolved_callback_witness :
    findScriptObject stGlobal 7 = none
    ∧ handleAPICallback stGlobal noProps noProps funBehaviorNum 7 []
        = ([], stGlobal, .errorReply ("Function was not found - ID: " ++ toString 7)) :=
  ⟨by decide,
   C2_unresolved_callback stGlobal noProps noProps funBehaviorNum 7 [] (Or.inl (by decide))⟩

/-- C3 as stated fails on the code: `_handleAPICallback` is typed
`Promise<void>` and discards the invoked function's return value, so
the settled reply never carries the encoded return.  Here the resolved
local function returns 42, yet the handler settles as a plain
acknowledgment and not as a reply carrying the encoded 42. -/
theorem C3_counterexample :
    (handleAPICallback stGlobal noProps noProps funBehaviorNum 1 []).2.2
        = .acknowledged fnFoo []
    ∧ (handleAPICallback stGlobal noProps noProps funBehaviorNum 1 []).2.2
        ≠ .resultReply (.sNum 42) := by
  exact ⟨by decide, by decide⟩

/-- C3 (amended): when the handle resolves to a local function, the
dispatcher decodes all arguments and invokes the function with them;
the settled reply, however, carries no encoded return value — a
successful invocation settles as a plain acknowledgment, and a thrown
error settles as the error reply. -/
theorem C3_callback_invocation (st : RPCState) (propsOf methodsOf : Nat → List String)
    (funBehavior : Ref → List SerializableValue → Except String SerializableValue)
    (functionId : Nat) (args : List SerializedValue) (r : Ref)
    (evs : List Event) (st1 : RPCState) (vs : List SerializableValue)
    (hfind : findScriptObject st functionId = some r)
    (hfn : r.isFunctionRef = true)
    (hdec : deserializeAll propsOf methodsOf st args = (evs, st1, .ok vs)) :
    (∀ w, funBehavior r vs = .ok w →
        handleAPICallback st propsOf methodsOf funBehavior functionId args
          = (evs, st1, .acknowledged r vs))
    ∧ (∀ e, funBehavior r vs = .error e →
        handleAPICallback st propsOf methodsOf funBehavior functionId args
          = (evs, st1, .errorReply e)) := by
  constructor
  · intro w hw
    simp [handleAPICallback, hfind, hfn, hdec, hw]
  · intro e he
    simp [handleAPICallback, hfind, hfn, hdec, he]

theorem C3_callback_invocation_witness :
    findScriptObject stGlobal 1 = some fnFoo
    ∧ handleAPICallback stGlobal noProps noProps funBehaviorNum 1 []
        = ([], stGlobal, .acknowledged fnFoo []) :=
  ⟨by decide,
   (C3_callback_invocation stGlobal noProps noProps funBehaviorNum 1 [] fnFoo [] stGlobal []
     (by decide) (by decide) rfl).1 (.vNum 42) rfl⟩

/-- C4 as stated fails on the code: `_serialize` consults only the
identity map, never frame reachability.  After a call settles, its
argument reference is listed in no pushed frame, yet serializing it
still succeeds with its old handle, and a subsequent `set` carrying it
is sent. -/
theorem C4_counterexample :
    reachableInFrames stAfterCall objOnce = false
    ∧ serializeValue stAfterCall (.vObj objOnce) = .ok (.sScriptObject 1)
    ∧ (setterRun stAfterCall 123 "p" (.vObj objOnce) (.ok (.sBool true))).1
        = [.sent (setterRequest 123 "p" (.sScriptObject 1)), .received] := by
  exact ⟨by decide, rfl, by decide⟩

/-- C4 (amended): serializing an object/function fails with the
serialization error exactly when the reference has never been assigned
a handle — it is absent from the identity map; reachability through the
current or permanent frame is not what is checked.  When serialization
does fail (setter path shown), the in-progress call fails before any
request is sent. -/
theorem C4_serialize_unregistered (st : RPCState) (r : Ref) (target : Nat)
    (propertyName : String) (reply : Except String SerializedValue) :
    ((∃ e, serializeValue st (.vObj r) = .error e) ↔ lookupId st.idMap r = none)
    ∧ (lookupId st.idMap r = none →
        setterRun st target propertyName (.vObj r) reply
          = ([], st, .error "Unexpected value")) := by
  constructor
  · constructor
    · rintro ⟨e, he⟩
      cases hl : lookupId st.idMap r with
      | none => rfl
      | some hdl => simp [serializeValue, hl] at he
    · intro hl
      exact ⟨"Unexpected value", by simp [serializeValue, hl]⟩
  · intro hl
    simp [setterRun, serializeValue, hl]

theorem C4_serialize_unregistered_witness :
    lookupId stGlobal.idMap objBare = none
    ∧ setterRun stGlobal 123 "p" (.vObj objBare) (.ok (.sBool true))
        = ([], stGlobal, .error "Unexpected value") :=
  ⟨by decide,
   (C4_serialize_unregistered stGlobal objBare 123 "p" (.ok (.sBool true))).2 (by decide)⟩

/-- C5: the codec sends `undefined` to the empty marker and null to the
invalid handle, and back — so serialize-then-deserialize of `undefined`
yields `undefined`, serializing null yields handle 0, deserializing
handle 0 yields null — while booleans, numbers and strings pass through
unchanged in both directions. -/
theorem C5_codec_roundtrip (st : RPCState) (propsOf methodsOf : Nat → List String)
    (b : Bool) (n : Int) (s : String) :
    serializeValue st .vUndefined = .ok .sEmpty
    ∧ deserializeValue st propsOf methodsOf .sEmpty = ([], st, .ok .vUndefined)
    ∧ serializeValue st .vNull = .ok (.sScriptObject API_VALUE_INVALID_SCRIPT_OBJECT)
    ∧ deserializeValue st propsOf methodsOf (.sScriptObject API_VALUE_INVALID_SCRIPT_OBJECT)
        = ([], st, .ok .vNull)
    ∧ serializeValue st (.vBool b) = .ok (.sBool b)
    ∧ deserializeValue st propsOf methodsOf (.sBool b) = ([], st, .ok (.vBool b))
    ∧ serializeValue st (.vNum n) = .ok (.sNum n)
    ∧ deserializeValue st propsOf methodsOf (.sNum n) = ([], st, .ok (.vNum n))
    ∧ serializeValue st (.vStr s) = .ok (.sStr s)
    ∧ deserializeValue st propsOf methodsOf (.sStr s) = ([], st, .ok (.vStr s)) := by
  refine ⟨rfl, rfl, rfl, ?_, rfl, rfl, rfl, rfl, rfl, rfl⟩
  simp [deserializeValue]

/-- C6: handle assignment is idempotent and monotonic: an unseen
reference receives the next handle of the strictly increasing
per-session sequence (strictly above every handle already assigned),
re-registering an already registered reference is a no-op, existing
assignments are never changed by later assignments, the well-formedness
invariant — every assigned handle lies between 1 and the counter —
holds for a freshly constructed manager and is preserved by assignment,
and the invalid handle 0 is never the handle of a live reference. -/
theorem C6_handle_assignment (st : RPCState) (r r' : Ref) (h : Nat)
    (cfg : List (String × Ref)) (hwf : HandlesWellFormed st) :
    (lookupId st.idMap r = none →
        (st.assignScriptObjectId r).lastScriptObjectId = st.lastScriptObjectId + 1
        ∧ lookupId (st.assignScriptObjectId r).idMap r = some (st.lastScriptObjectId + 1)
        ∧ ∀ r2 h2, lookupId st.idMap r2 = some h2 → h2 < st.lastScriptObjectId + 1)
    ∧ (lookupId st.idMap r = some h → st.assignScriptObjectId r = st)
    ∧ (lookupId st.idMap r' = some h →
        lookupId (st.assignScriptObjectId r).idMap r' = some h)
    ∧ HandlesWellFormed (st.assignScriptObjectId r)
    ∧ HandlesWellFormed (mkRPCManager cfg)
    ∧ (lookupId st.idMap r = some h → h ≠ API_VALUE_INVALID_SCRIPT_OBJECT) := by
  refine ⟨?_, ?_, assign_preserves st r r' h, assign_wf st r hwf, mk_wf cfg, ?_⟩
  · intro hl
    rw [assign_eq_of_none st r hl]
    refine ⟨rfl, by simp [lookupId], ?_⟩
    intro r2 h2 hl2
    have := (hwf r2 h2 hl2).2
    omega
  · intro hl
    exact assign_eq_of_some st r h hl
  · intro hl
    have h1 := (hwf r h hl).1
    intro h0
    simp only [API_VALUE_INVALID_SCRIPT_OBJECT] at h0
    omega

theorem C6_handle_assignment_witness :
    lookupId stGlobal.idMap objBare = none
    ∧ lookupId (stGlobal.assignScriptObjectId objBare).idMap objBare
        = some (stGlobal.lastScriptObjectId + 1) :=
  ⟨by decide,
   ((C6_handle_assignment stGlobal objBare objBare 1 [] (mk_wf [("foo", fnFoo)])).1
     (by decide)).2.1⟩

/-- C7: materializing a handle whose describe replies list property
names P and method names M (all distinct) yields a sealed proxy whose
own member list is exactly one get/set accessor per name of P followed
by one callable method member per name of M, with no member under any
other name; the accessor's read issues the `get` round-trip request for
that target handle and name. -/
theorem C7_materialized_shape (st : RPCState) (propsOf methodsOf : Nat → List String)
    (h : Nat) (hnd : (propsOf h ++ methodsOf h).Nodup) :
    describeScriptObject st propsOf methodsOf h
      = (describeRequests h, describedState st h,
         .ok ⟨h, builtMembers (propsOf h) (methodsOf h), true, Ref.proxyObj st.freshIdent⟩)
    ∧ (builtMembers (propsOf h) (methodsOf h)).map Prod.fst = propsOf h ++ methodsOf h
    ∧ (∀ name, name ∈ propsOf h →
        lookupMember (builtMembers (propsOf h) (methodsOf h)) name = some .accessor)
    ∧ (∀ name, name ∈ methodsOf h →
        lookupMember (builtMembers (propsOf h) (methodsOf h)) name = some .methodMember)
    ∧ (∀ name, lookupMember (builtMembers (propsOf h) (methodsOf h)) name ≠ none →
        name ∈ propsOf h ++ methodsOf h)
    ∧ (∀ name reply,
        (getterRun (describedState st h) h name reply propsOf methodsOf).1.head?
          = some (.sent (getterRequest h name))) := by
  have hdisj := (List.nodup_append.mp hnd).2.2
  refine ⟨describe_ok st propsOf methodsOf h hnd, builtMembers_names _ _, ?_, ?_, ?_, ?_⟩
  · intro name hn
    exact lookupMember_map_mem (propsOf h) .accessor _ name hn
  · intro name hm
    have hnp : name ∉ propsOf h := fun hp => hdisj hp hm
    have hskip := lookupMember_map_skip (propsOf h) .accessor
      ((methodsOf h).map (fun n => (n, MemberKind.methodMember))) name hnp
    have hmem := lookupMember_map_mem (methodsOf h) .methodMember [] name hm
    rw [List.append_nil] at hmem
    calc lookupMember (builtMembers (propsOf h) (methodsOf h)) name
        = lookupMember ((methodsOf h).map (fun n => (n, MemberKind.methodMember))) name :=
          hskip
      _ = some .methodMember := hmem
  · intro name hne
    have := lookupMember_isSome_mem (builtMembers (propsOf h) (methodsOf h)) name hne
    rwa [builtMembers_names] at this
  · intro name reply
    cases reply with
    | error e => rfl
    | ok rv =>
      rcases hd : deserializeValue (describedState st h) propsOf methodsOf rv
        with ⟨evs, st1, res⟩
      simp [getterRun, hd]

theorem C7_materialized_shape_witness :
    (oneProp 123 ++ noProps 123).Nodup
    ∧ describeScriptObject stEmpty oneProp noProps 123
        = (describeRequests 123, describedState stEmpty 123,
           .ok ⟨123, builtMembers (oneProp 123) (noProps 123), true,
             Ref.proxyObj stEmpty.freshIdent⟩) :=
  ⟨by decide, (C7_materialized_shape stEmpty oneProp noProps 123 (by decide)).1⟩

/-- C8: when the reply to `authenticate` carries an error, initialize
fails immediately — the run is exactly the authenticate exchange
followed by the rejection — and no `getRootObject` request is ever
sent. -/
theorem C8_auth_failure (cfg : List (String × Ref)) (token : String) (oracle : InitOracle)
    (e : String) (ha : oracle.authReply = .error e) :
    initializeRun cfg token oracle
      = ([.sent (authRequest token), .received], mkRPCManager cfg, .error e)
    ∧ ∀ ev ∈ (initializeRun cfg token oracle).1, ∀ ps,
        ev ≠ .sent ⟨API_SERVER_METHOD_GET_ROOT_OBJECT, ps⟩ := by
  have h1 : initializeRun cfg token oracle
      = ([.sent (authRequest token), .received], mkRPCManager cfg, .error e) := by
    simp [initializeRun, ha]
  refine ⟨h1, ?_⟩
  rw [h1]
  intro ev hev ps
  have hcases : ev = .sent (authRequest token) ∨ ev = .received := by
    simpa using hev
  rcases hcases with he | he <;> subst he
  · simp [authRequest, API_SERVER_METHOD_AUTHENTICATE, API_SERVER_METHOD_GET_ROOT_OBJECT]
  · intro hc
    exact Event.noConfusion hc

theorem C8_auth_failure_witness :
    oracleDenied.authReply = .error "Access denied."
    ∧ initializeRun [] "bad token" oracleDenied
        = ([.sent (authRequest "bad token"), .received], mkRPCManager [],
           .error "Access denied.") :=
  ⟨rfl, (C8_auth_failure [] "bad token" oracleDenied "Access denied." rfl).1⟩

/-- C9: after successful authentication and root retrieval, initialize
sends one `registerCallback` execution per configured global callback,
in caller-declared order (the registration names appearing in the trace
are exactly the configured names in order), and the whole trace strictly
alternates request/reply — so each registration request is sent only
after the previous registration's reply has been received. -/
theorem C9_registration_order (cfg : List (String × Ref)) (token : String)
    (oracle : InitOracle) (av : SerializedValue) (h : Nat)
    (ha : oracle.authReply = .ok av)
    (hr : oracle.rootReply = .ok (.sScriptObject h))
    (h0 : h ≠ API_VALUE_INVALID_SCRIPT_OBJECT)
    (hnd : (oracle.propsOf h ++ oracle.methodsOf h).Nodup)
    (hrc : "registerCallback" ∈ oracle.methodsOf h)
    (hlen : cfg.length ≤ oracle.execReplies.length)
    (hok : oracle.execReplies.all okScalarReply = true) :
    registrationsOf (initializeRun cfg token oracle).1 = cfg.map Prod.fst
    ∧ alternating (initializeRun cfg token oracle).1 = true := by
  have hdes : deserializeValue (mkRPCManager cfg) oracle.propsOf oracle.methodsOf
        (.sScriptObject h)
      = (describeRequests h, describedState (mkRPCManager cfg) h,
         .ok (.vProxy ⟨h, builtMembers (oracle.propsOf h) (oracle.methodsOf h), true,
           Ref.proxyObj (mkRPCManager cfg).freshIdent⟩)) := by
    simp only [deserializeValue, if_neg h0,
      describe_ok (mkRPCManager cfg) oracle.propsOf oracle.methodsOf h hnd]
  have hdisj := (List.nodup_append.mp hnd).2.2
  have hnp : "registerCallback" ∉ oracle.propsOf h := fun hp => hdisj hp hrc
  have hlm : lookupMember (builtMembers (oracle.propsOf h) (oracle.methodsOf h))
      "registerCallback" = some .methodMember := by
    have hskip := lookupMember_map_skip (oracle.propsOf h) .accessor
      ((oracle.methodsOf h).map (fun n => (n, MemberKind.methodMember)))
      "registerCallback" hnp
    have hmem := lookupMember_map_mem (oracle.methodsOf h) .methodMember []
      "registerCallback" hrc
    rw [List.append_nil] at hmem
    calc lookupMember (builtMembers (oracle.propsOf h) (oracle.methodsOf h))
          "registerCallback"
        = lookupMember ((oracle.methodsOf h).map (fun n => (n, MemberKind.methodMember)))
          "registerCallback" := hskip
      _ = some .methodMember := hmem
  cases cfg with
  | nil =>
    have htr : (initializeRun [] token oracle).1
        = [.sent (authRequest token), .received, .sent rootRequest, .received]
          ++ describeRequests h := by
      simp [initializeRun, ha, hr, hdes]
    rw [htr]
    constructor
    · rw [registrationsOf_append, registrationsOf_initHead, registrationsOf_describe]
      rfl
    · simp only [describeRequests, List.cons_append, List.nil_append]
      rfl
  | cons c cs =>
    rcases hreg : registerLoop oracle.propsOf oracle.methodsOf h
        (describedState (mkRPCManager (c :: cs)) h) (c :: cs) oracle.execReplies
      with ⟨evs2, st2, res⟩
    have hspec := registerLoop_spec oracle.propsOf oracle.methodsOf h (c :: cs)
      (describedState (mkRPCManager (c :: cs)) h) oracle.execReplies hlen hok
    rw [hreg] at hspec
    have hres : res = .ok () := hspec.2.2
    subst hres
    have htr : (initializeRun (c :: cs) token oracle).1
        = ([.sent (authRequest token), .received, .sent rootRequest, .received]
            ++ describeRequests h) ++ evs2 := by
      simp [initializeRun, ha, hr, hdes, hlm, hreg]
    rw [htr]
    constructor
    · rw [registrationsOf_append, registrationsOf_append, registrationsOf_initHead,
        registrationsOf_describe]
      simpa using hspec.1
    · simp only [describeRequests, List.cons_append, List.nil_append, List.append_nil]
      simpa only [alternating_pair] using hspec.2.1

theorem C9_registration_order_witness :
    oracleTwo.execReplies.all okScalarReply = true
    ∧ cfgTwo.length ≤ oracleTwo.execReplies.length
    ∧ registrationsOf (initializeRun cfgTwo "token" oracleTwo).1 = cfgTwo.map Prod.fst
    ∧ alternating (initializeRun cfgTwo "token" oracleTwo).1 = true :=
  ⟨by decide, by decide,
   (C9_registration_order cfgTwo "token" oracleTwo (.sBool true) 123 rfl rfl
     (by decide) (by decide) (by decide) (by decide) (by decide)).1,
   (C9_registration_order cfgTwo "token" oracleTwo (.sBool true) 123 rfl rfl
     (by decide) (by decide) (by decide) (by decide) (by decide)).2⟩

/-- C10: deserializing a valid (nonzero) handle builds a proxy that is
registered under that very handle in the identity map at construction
time, so serializing the proxy afterwards yields the same script-object
handle and cannot raise a serialization error, although the frame stack
never changed — the proxy sits in no scope frame. -/
theorem C10_proxy_self_registration (st : RPCState) (propsOf methodsOf : Nat → List String)
    (h : Nat) (h0 : h ≠ API_VALUE_INVALID_SCRIPT_OBJECT)
    (hnd : (propsOf h ++ methodsOf h).Nodup) :
    deserializeValue st propsOf methodsOf (.sScriptObject h)
      = (describeRequests h, describedState st h,
         .ok (.vProxy ⟨h, builtMembers (propsOf h) (methodsOf h), true,
           Ref.proxyObj st.freshIdent⟩))
    ∧ lookupId (describedState st h).idMap (Ref.proxyObj st.freshIdent) = some h
    ∧ serializeValue (describedState st h)
        (.vProxy ⟨h, builtMembers (propsOf h) (methodsOf h), true,
          Ref.proxyObj st.freshIdent⟩)
        = .ok (.sScriptObject h)
    ∧ (describedState st h).stack = st.stack := by
  have hlk : lookupId (describedState st h).idMap (Ref.proxyObj st.freshIdent) = some h := by
    simp [describedState, lookupId]
  refine ⟨?_, hlk, ?_, rfl⟩
  · simp only [deserializeValue, if_neg h0, describe_ok st propsOf methodsOf h hnd]
  · simp [serializeValue, hlk]

theorem C10_proxy_self_registration_witness :
    (123 : Nat) ≠ API_VALUE_INVALID_SCRIPT_OBJECT
    ∧ serializeValue (describedState stEmpty 123)
        (.vProxy ⟨123, builtMembers (oneProp 123) (noProps 123), true,
          Ref.proxyObj stEmpty.freshIdent⟩)
        = .ok (.sScriptObject 123) :=
  ⟨by decide,
   (C10_proxy_self_registration stEmpty oneProp noProps 123 (by decide) (by decide)).2.2.1⟩

end ZoiperRPC
